import Mathlib

/-!
# Verification of the sleet streaming system

A shallow embedding, in Lean 4, of the core logic of the repository's
Python components, together with theorems settling the specification's
claims about them:

* `src/src/streamer/streamer.py` — the sliding-window streamer
  (`SlidingWindowStreamer`): sequence-state persistence, window
  computation, advance rule, HLS playlist generation, the tick
  (`update_stream`).
* `src/src/setup/setup_processor.py` — the setup processor
  (`SetupProcessor`): config-hash cache gate, jingle interleaving,
  the cache-hit branch of `run`.
* `src/src/state-sync/state-sync.py` — the state synchronizer
  (`StateSync`): multibase topic encoding, message decoding, the
  peer-convergence rule `sync_state`.
* `src/src/segment-cleanup/cleanup-old-segments.py` — the segment
  cleaner (`SegmentCleaner`): selection by age and count, the removal
  loop, the persistence gate.

External effects (HTTP calls to the IPFS daemon, ffmpeg invocations,
file-system writes) are modelled by explicit outcome parameters
(`Bool` oracles for success/failure) and by effect traces, so that the
control flow around them is embedded exactly as written.  Machine
integers are modelled as `Nat`/`Int`; Python dictionaries (which
iterate in insertion order) as association lists.
-/

namespace Sleet

/-! ## Sliding-window streamer (`streamer.py`)

State of `SlidingWindowStreamer`: the in-memory `sequence_number` and
`update_counter`.  The persisted `sequence_state.json` content is
carried separately as a plain `Nat` (`disk`). -/

/-- The fields of `streaming.config.json` used by the window logic:
`max_segments` (the window size `W`) and `advance_every` (`A`). -/
structure StreamingConfig where
  max_segments : Nat
  advance_every : Nat
  deriving DecidableEq, Repr

/-- In-memory counters of `SlidingWindowStreamer`. -/
structure StreamerState where
  sequence_number : Nat
  update_counter : Nat
  deriving DecidableEq, Repr

/-- `SlidingWindowStreamer.get_window_segments`: if the playlist is
empty return `[]`; otherwise `current_position = S % L` and the window
collects `playlist_entries[(current_position + i) % L]` for
`i ∈ [0, max_segments)`.  (The Python list index is always in range;
`getD` with default `""` models it totally.) -/
def get_window_segments (cfg : StreamingConfig) (playlist_entries : List String)
    (sequence_number : Nat) : List String :=
  let total_segments := playlist_entries.length
  if total_segments = 0 then []
  else
    let current_position := sequence_number % total_segments
    (List.range cfg.max_segments).map
      (fun i => playlist_entries.getD ((current_position + i) % total_segments) "")

/-- `SlidingWindowStreamer.advance_window`: no-op on an empty playlist;
otherwise increment `update_counter`; once it reaches `advance_every`,
increment `sequence_number`, reset the counter and attempt
`save_sequence_state` (which writes the new sequence to disk when the
write succeeds and only logs when it fails).  `saveOk` is the outcome
of that file write; `disk` is the persisted sequence value.  Returns
the new in-memory state and the new persisted value. -/
def advance_window (cfg : StreamingConfig) (playlist_entries : List String)
    (saveOk : Bool) (st : StreamerState) (disk : Nat) : StreamerState × Nat :=
  if playlist_entries.length = 0 then (st, disk)
  else
    let u := st.update_counter + 1
    if cfg.advance_every ≤ u then
      let s := st.sequence_number + 1
      (⟨s, 0⟩, if saveOk then s else disk)
    else
      (⟨st.sequence_number, u⟩, disk)

/-- `SlidingWindowStreamer.load_sequence_state`: the restored sequence
is the persisted one when the state file exists and parses
(`loadOk = true`), and `0` otherwise. -/
def load_sequence_state (loadOk : Bool) (disk : Nat) : Nat :=
  if loadOk then disk else 0

/-- Stand-in for `datetime.strftime("%Y-%m-%dT%H:%M:%S.%f")[:-3] + "Z"`:
timestamps are abstracted to integer seconds rendered as text. -/
def pdtString (t : Int) : String :=
  toString t ++ "Z"

/-- `SlidingWindowStreamer.generate_hls_playlist`: `None` on an empty
window, otherwise the header lines followed, per segment, by a
`#EXT-X-PROGRAM-DATE-TIME` line (the last segment stamped `now`, each
prior one 6 s earlier), an `#EXTINF:6.0,` line and the `/ipfs/<CID>`
URI.  The result is the list of lines of the emitted text. -/
def generate_hls_playlist (now : Int) (sequence_number : Nat)
    (segments : List String) : Option (List String) :=
  if segments.isEmpty then none
  else
    some (["#EXTM3U", "#EXT-X-VERSION:3", "#EXT-X-TARGETDURATION:7",
           "#EXT-X-MEDIA-SEQUENCE:" ++ toString sequence_number]
      ++ (List.range segments.length).flatMap (fun i =>
           ["#EXT-X-PROGRAM-DATE-TIME:" ++
              pdtString (now - (segments.length - i - 1) * 6),
            "#EXTINF:6.0,",
            "/ipfs/" ++ segments.getD i ""]))

/-- Observable actions of one streamer tick: uploading the playlist
text to IPFS, publishing the resulting CID under the stream key (the
published playlist carries the given `MEDIA-SEQUENCE`), and writing
`stream_info.json`. -/
inductive StreamEffect where
  | upload (lines : List String)
  | publish (mediaSequence : Nat)
  | writeInfo (sequenceNumber : Nat)
  deriving DecidableEq, Repr

/-- `SlidingWindowStreamer.update_stream`: one tick.  `hasKey` is
whether `stream_key` was initialised; `uploadOk`/`publishOk` are the
outcomes of the IPFS add and the IPNS publish; `saveOk` the outcome of
the sequence-state write.  Returns the success flag, the new in-memory
state, the new persisted sequence, and the trace of effects. -/
def update_stream (cfg : StreamingConfig) (playlist_entries : List String)
    (now : Int) (hasKey uploadOk publishOk saveOk : Bool)
    (st : StreamerState) (disk : Nat) :
    Bool × StreamerState × Nat × List StreamEffect :=
  if hasKey = false then (false, st, disk, [])
  else
    let window_segments := get_window_segments cfg playlist_entries st.sequence_number
    if window_segments.isEmpty then (false, st, disk, [])
    else
      match generate_hls_playlist now st.sequence_number window_segments with
      | none => (false, st, disk, [])
      | some lines =>
        if uploadOk = false then (false, st, disk, [.upload lines])
        else if publishOk = false then (false, st, disk, [.upload lines])
        else
          let next := advance_window cfg playlist_entries saveOk st disk
          (true, next.1, next.2,
           [.upload lines, .publish st.sequence_number,
            .writeInfo st.sequence_number])

/-- The `MEDIA-SEQUENCE` values of the playlists published by a trace
of effects. -/
def publishedSeqs (effs : List StreamEffect) : List Nat :=
  effs.filterMap (fun e => match e with
    | .publish s => some s
    | _ => none)

/-- One external event in the life of a streamer process: a tick with
the given IPFS-call and file-write outcomes, or a process stop and
restart (which re-reads `sequence_state.json`; `loadOk` is whether the
file exists and parses). -/
inductive StreamerEv where
  | tick (uploadOk publishOk saveOk : Bool)
  | restart (loadOk : Bool)
  deriving DecidableEq, Repr

/-- A streamer process together with its persisted sequence file and
the history of published `MEDIA-SEQUENCE` values. -/
structure StreamerMachine where
  st : StreamerState
  disk : Nat
  emitted : List Nat
  deriving DecidableEq, Repr

/-- Step of the streamer under one event.  A tick runs
`update_stream` (the main loop ignores its Boolean result beyond
logging); a restart replaces the in-memory state by
`⟨load_sequence_state loadOk disk, 0⟩`, exactly as `__init__` does. -/
def streamerStep (cfg : StreamingConfig) (playlist_entries : List String)
    (hasKey : Bool) (m : StreamerMachine) : StreamerEv → StreamerMachine
  | .tick uploadOk publishOk saveOk =>
    let r := update_stream cfg playlist_entries 0 hasKey uploadOk publishOk saveOk m.st m.disk
    ⟨r.2.1, r.2.2.1, m.emitted ++ publishedSeqs r.2.2.2⟩
  | .restart loadOk =>
    ⟨⟨load_sequence_state loadOk m.disk, 0⟩, m.disk, m.emitted⟩

/-- Run the streamer over a list of events. -/
def streamerRun (cfg : StreamingConfig) (playlist_entries : List String)
    (hasKey : Bool) (m : StreamerMachine) (evs : List StreamerEv) : StreamerMachine :=
  evs.foldl (streamerStep cfg playlist_entries hasKey) m

/-- An event on which every interaction with `sequence_state.json`
succeeds: ticks persist successfully, restarts re-load successfully. -/
def StreamerEv.stateFileOk : StreamerEv → Prop
  | .tick _ _ saveOk => saveOk = true
  | .restart loadOk => loadOk = true

instance : DecidablePred StreamerEv.stateFileOk := by
  intro e; cases e <;> simp [StreamerEv.stateFileOk] <;> infer_instance

/-! ### Claims about the streamer's window and counters -/

/-- C3.  For every sequence counter `S`, every non-empty playlist and
every window size `W = max_segments`, the window is exactly the list of
`W` CIDs at virtual-playlist indices `(S + i) % L`, `i ∈ [0, W)`, in
that order. -/
theorem claim3_window_formula (cfg : StreamingConfig)
    (playlist_entries : List String) (S : Nat)
    (h : playlist_entries ≠ []) :
    get_window_segments cfg playlist_entries S =
      (List.range cfg.max_segments).map
        (fun i => playlist_entries.getD ((S + i) % playlist_entries.length) "") := by
  have hL : playlist_entries.length ≠ 0 := by
    simpa [List.length_eq_zero] using h
  simp only [get_window_segments, hL, if_false, Nat.mod_add_mod]

/-- Witness for C3 at a concrete input. -/
theorem claim3_window_formula_witness :
    get_window_segments ⟨4, 2⟩ ["a", "b", "c"] 5 =
      (List.range 4).map
        (fun i => (["a", "b", "c"] : List String).getD ((5 + i) % 3) "") :=
  claim3_window_formula ⟨4, 2⟩ ["a", "b", "c"] 5 (by decide)

/-- C10.  On a tick where the loaded virtual playlist is empty,
`update_stream` returns `False`, produces no upload, publish or
`stream_info` write, and leaves both counters and the persisted
sequence unchanged (the guard in `get_window_segments` returns before
any modulo over the playlist length is taken). -/
theorem claim10_empty_playlist_tick (cfg : StreamingConfig) (now : Int)
    (hasKey uploadOk publishOk saveOk : Bool)
    (st : StreamerState) (disk : Nat) :
    update_stream cfg [] now hasKey uploadOk publishOk saveOk st disk =
      (false, st, disk, []) := by
  cases hasKey <;>
    simp [update_stream, get_window_segments]

/-- Counterexample to C2 as stated: on a tick whose sequence-state
write fails (`saveOk = false`), with `advance_every = 1` and counters
at `0`, the in-memory sequence number is incremented to `1` all the
same — it does not keep its pre-tick value `0`. -/
theorem claim2_counterexample :
    ¬ ((advance_window ⟨1, 1⟩ ["c"] false ⟨0, 0⟩ 0).1.sequence_number = 0) := by
  decide

/-- C2 amended.  On a tick whose `sequence_state.json` write fails,
the on-disk sequence is left unchanged, but the in-memory state
evolves exactly as on a tick whose write succeeds: when the update
counter reaches `advance_every` the in-memory `S` is still
incremented (the increment happens before, and regardless of, the
write). -/
theorem claim2_amended_failed_save (cfg : StreamingConfig)
    (playlist_entries : List String) (st : StreamerState) (disk : Nat) :
    (advance_window cfg playlist_entries false st disk).2 = disk ∧
    (advance_window cfg playlist_entries false st disk).1 =
      (advance_window cfg playlist_entries true st disk).1 := by
  by_cases hL : playlist_entries.length = 0 <;>
    by_cases hc : cfg.advance_every ≤ st.update_counter + 1 <;>
      simp [advance_window, hL, hc]

/-- C4.  With a non-empty playlist and `advance_every = A ≥ 1`,
iterating `advance_window` (all writes succeeding) `n` times from
update counter `0`, sequence `S` and persisted value `S` yields
sequence `S + n / A`, update counter `n % A`, and persisted value
`S + n / A`: the sequence advances by one exactly once per `A`
consecutive successful ticks, is unchanged on the other ticks, and is
persisted whenever it advances. -/
theorem claim4_advance_rule (cfg : StreamingConfig)
    (playlist_entries : List String) (h : playlist_entries ≠ [])
    (hA : 1 ≤ cfg.advance_every) (S n : Nat) :
    (fun p : StreamerState × Nat =>
        advance_window cfg playlist_entries true p.1 p.2)^[n] (⟨S, 0⟩, S) =
      (⟨S + n / cfg.advance_every, n % cfg.advance_every⟩,
       S + n / cfg.advance_every) := by
  have hL : playlist_entries.length ≠ 0 := by
    simpa [List.length_eq_zero] using h
  induction n with
  | zero => simp
  | succ n ih =>
    rw [Function.iterate_succ_apply', ih]
    have hq := Nat.div_add_mod n cfg.advance_every
    have hr : n % cfg.advance_every < cfg.advance_every :=
      Nat.mod_lt _ (by omega)
    unfold advance_window
    simp only [hL, if_false]
    by_cases hadv : cfg.advance_every ≤ n % cfg.advance_every + 1
    · have hre : n % cfg.advance_every + 1 = cfg.advance_every := by omega
      have hn1 : n + 1 = cfg.advance_every * (n / cfg.advance_every + 1) := by
        rw [Nat.mul_succ]; omega
      have hdiv : (n + 1) / cfg.advance_every = n / cfg.advance_every + 1 := by
        rw [hn1, Nat.mul_div_cancel_left _ (by omega : 0 < cfg.advance_every)]
      have hmod : (n + 1) % cfg.advance_every = 0 := by
        rw [hn1, Nat.mul_mod_right]
      simp [hadv, hdiv, hmod, Nat.add_assoc]
    · have hre : n % cfg.advance_every + 1 < cfg.advance_every := by omega
      have hn1 : n + 1 = (n % cfg.advance_every + 1) +
          cfg.advance_every * (n / cfg.advance_every) := by omega
      have hdiv : (n + 1) / cfg.advance_every = n / cfg.advance_every := by
        rw [hn1, Nat.add_mul_div_left _ _ (by omega : 0 < cfg.advance_every),
          Nat.div_eq_of_lt hre, Nat.zero_add]
      have hmod : (n + 1) % cfg.advance_every = n % cfg.advance_every + 1 := by
        rw [hn1, Nat.add_mul_mod_self_left, Nat.mod_eq_of_lt hre]
      simp [hadv, hdiv, hmod]

/-- Witness for C4 at a concrete input. -/
theorem claim4_advance_rule_witness :
    (fun p : StreamerState × Nat =>
        advance_window ⟨4, 2⟩ ["a"] true p.1 p.2)^[5] (⟨3, 0⟩, 3) =
      (⟨3 + 5 / 2, 5 % 2⟩, 3 + 5 / 2) :=
  claim4_advance_rule ⟨4, 2⟩ ["a"] (by decide) (by decide) 3 5

/-! ### Claim 1: sequence monotonicity across restarts -/

/-- A tick either leaves state, disk and publications unchanged (an
aborted tick), or publishes exactly the current sequence number and
applies `advance_window`. -/
lemma update_stream_shape (cfg : StreamingConfig) (entries : List String)
    (now : Int) (k u p s : Bool) (st : StreamerState) (disk : Nat) :
    ((update_stream cfg entries now k u p s st disk).2.1 = st ∧
     (update_stream cfg entries now k u p s st disk).2.2.1 = disk ∧
     publishedSeqs (update_stream cfg entries now k u p s st disk).2.2.2 = []) ∨
    ((update_stream cfg entries now k u p s st disk).2.1 =
        (advance_window cfg entries s st disk).1 ∧
     (update_stream cfg entries now k u p s st disk).2.2.1 =
        (advance_window cfg entries s st disk).2 ∧
     publishedSeqs (update_stream cfg entries now k u p s st disk).2.2.2 =
        [st.sequence_number]) := by
  cases k with
  | false => left; simp [update_stream, publishedSeqs]
  | true =>
    by_cases hw : (get_window_segments cfg entries st.sequence_number).isEmpty
    · left; simp [update_stream, hw, publishedSeqs]
    · cases u with
      | false =>
        left; simp [update_stream, generate_hls_playlist, hw, publishedSeqs]
      | true =>
        cases p with
        | false =>
          left; simp [update_stream, generate_hls_playlist, hw, publishedSeqs]
        | true =>
          right; simp [update_stream, generate_hls_playlist, hw, publishedSeqs]

/-- When the sequence-state write succeeds and the persisted value
agrees with the in-memory one beforehand, they agree afterwards as
well, and the in-memory sequence does not decrease. -/
lemma advance_window_true_inv (cfg : StreamingConfig) (entries : List String)
    (st : StreamerState) (disk : Nat) (h : disk = st.sequence_number) :
    (advance_window cfg entries true st disk).2 =
      (advance_window cfg entries true st disk).1.sequence_number ∧
    st.sequence_number ≤
      (advance_window cfg entries true st disk).1.sequence_number := by
  by_cases hL : entries.length = 0 <;>
    by_cases hc : cfg.advance_every ≤ st.update_counter + 1 <;>
      simp [advance_window, hL, hc, h]

/-- The run invariant behind C1: the persisted sequence equals the
in-memory one, every published `MEDIA-SEQUENCE` is at most the current
in-memory sequence, and the published history is non-decreasing. -/
def MachineInv (m : StreamerMachine) : Prop :=
  m.disk = m.st.sequence_number ∧
  (∀ x ∈ m.emitted, x ≤ m.st.sequence_number) ∧
  m.emitted.Pairwise (· ≤ ·)

/-- One event on which the state file behaves (`stateFileOk`)
preserves `MachineInv`. -/
lemma streamerStep_inv (cfg : StreamingConfig) (entries : List String)
    (hasKey : Bool) (m : StreamerMachine) (ev : StreamerEv)
    (hok : ev.stateFileOk) (h : MachineInv m) :
    MachineInv (streamerStep cfg entries hasKey m ev) := by
  obtain ⟨hd, hle, hp⟩ := h
  cases ev with
  | restart loadOk =>
    have hl : loadOk = true := hok
    subst hl
    refine ⟨by simp [streamerStep, load_sequence_state], ?_, ?_⟩
    · intro x hx
      simp only [streamerStep] at hx ⊢
      exact hd ▸ hle x hx
    · simpa [streamerStep] using hp
  | tick uploadOk publishOk saveOk =>
    have hs : saveOk = true := hok
    subst hs
    rcases update_stream_shape cfg entries 0 hasKey uploadOk publishOk true m.st m.disk
      with ⟨h1, h2, h3⟩ | ⟨h1, h2, h3⟩
    · refine ⟨?_, ?_, ?_⟩
      · dsimp only [streamerStep]; rw [h2, h1]; exact hd
      · intro x hx
        dsimp only [streamerStep] at hx ⊢
        rw [h3, List.append_nil] at hx
        rw [h1]
        exact hle x hx
      · dsimp only [streamerStep]
        rw [h3, List.append_nil]
        exact hp
    · obtain ⟨hd', hmono⟩ := advance_window_true_inv cfg entries m.st m.disk hd
      refine ⟨?_, ?_, ?_⟩
      · dsimp only [streamerStep]; rw [h2, h1]; exact hd'
      · intro x hx
        dsimp only [streamerStep] at hx ⊢
        rw [h3] at hx
        rw [h1]
        rcases List.mem_append.mp hx with hx | hx
        · exact le_trans (hle x hx) hmono
        · rw [List.mem_singleton] at hx
          exact hx ▸ hmono
      · dsimp only [streamerStep]
        rw [h3, List.pairwise_append]
        exact ⟨hp, by simp, fun a ha b hb => by
          rw [List.mem_singleton] at hb
          exact hb ▸ hle a ha⟩

/-- `MachineInv` is preserved by whole runs of well-behaved events. -/
lemma streamerRun_inv (cfg : StreamingConfig) (entries : List String)
    (hasKey : Bool) : ∀ (evs : List StreamerEv) (m : StreamerMachine),
    (∀ e ∈ evs, e.stateFileOk) → MachineInv m →
    MachineInv (streamerRun cfg entries hasKey m evs) := by
  intro evs
  induction evs with
  | nil => intro m _ h; simpa [streamerRun] using h
  | cons e es ih =>
    intro m hok h
    rw [streamerRun, List.foldl_cons]
    exact ih _ (fun x hx => hok x (List.mem_cons_of_mem _ hx))
      (streamerStep_inv cfg entries hasKey m e (hok e (List.mem_cons_self _ _)) h)

/-- Counterexample to C1 as stated: with `advance_every = 1`, a
one-entry playlist and window size 1, two ticks whose sequence-state
writes fail publish `MEDIA-SEQUENCE` 0 and 1 while the disk still
holds 0; after a restart the next tick publishes 0 again, so the
emitted history `[0, 1, 0]` is not non-decreasing. -/
theorem claim1_counterexample :
    ¬ ((streamerRun ⟨1, 1⟩ ["c"] true ⟨⟨0, 0⟩, 0, []⟩
        [.tick true true false, .tick true true false,
         .restart true, .tick true true true]).emitted.Pairwise (· ≤ ·)) := by
  decide

/-- C1 amended.  Provided every write of `sequence_state.json`
succeeds and the file loads successfully at every restart, the
sequence of published `MEDIA-SEQUENCE` values over a whole multi-run
history (ticks with arbitrary upload/publish outcomes, interleaved
with process restarts) is non-decreasing: every playlist published
later carries a `MEDIA-SEQUENCE` ≥ every one published earlier. -/
theorem claim1_amended_monotonic_sequence (cfg : StreamingConfig)
    (entries : List String) (hasKey : Bool) (m : StreamerMachine)
    (evs : List StreamerEv)
    (hm : m.disk = m.st.sequence_number) (he : m.emitted = [])
    (hok : ∀ e ∈ evs, e.stateFileOk) :
    ((streamerRun cfg entries hasKey m evs).emitted).Pairwise (· ≤ ·) :=
  (streamerRun_inv cfg entries hasKey evs m hok
    ⟨hm, by simp [he], by simp [he]⟩).2.2

/-- Witness for the amended C1 on a concrete history with a restart. -/
theorem claim1_amended_monotonic_sequence_witness :
    ((streamerRun ⟨1, 1⟩ ["c"] true ⟨⟨0, 0⟩, 0, []⟩
        [.tick true true true, .tick false true true,
         .restart true, .tick true true true]).emitted).Pairwise (· ≤ ·) :=
  claim1_amended_monotonic_sequence ⟨1, 1⟩ ["c"] true ⟨⟨0, 0⟩, 0, []⟩
    [.tick true true true, .tick false true true,
     .restart true, .tick true true true]
    rfl rfl (by decide)

/-! ## Setup processor (`setup_processor.py`)

`process_track` output records are embedded as `ProcTrack` (the
filename and the ordered CIDs of the uploaded segments); manifests as
`Manifest`.  External tools (ffprobe/ffmpeg in
`verify_audio_file`/`chunk_audio_file`, the IPFS add in
`upload_to_ipfs`) are modelled by oracles: `chunk f` is the segment
list produced for file `f` (`none` on verification or chunking
failure), `upload s` the CID for segment `s` (`none` on upload
failure). -/

/-- One processed track or jingle of the manifest: its source filename
and the ordered list of segment CIDs. -/
structure ProcTrack where
  filename : String
  segments : List String
  deriving DecidableEq, Repr

/-- The persisted `manifest.json` fields the control flow reads. -/
structure Manifest where
  config_hash : String
  tracks : List ProcTrack
  jingles : List ProcTrack
  deriving DecidableEq, Repr

/-- Observable actions of a setup-processor run: an ffmpeg transcode
of one input file, an IPFS upload of one segment, and the writes of
`playlist.m3u` and `manifest.json`. -/
inductive SetupEffect where
  | transcode (file : String)
  | upload (segment : String)
  | writePlaylist (lines : List String)
  | writeManifest
  deriving DecidableEq, Repr

/-- The two playlist lines `build_playlist` appends per segment CID:
`#EXTINF:<segment_duration>,` and `/ipfs/<CID>`. -/
def entryLines (segment_duration : Nat) (cids : List String) : List String :=
  cids.flatMap (fun cid =>
    ["#EXTINF:" ++ toString segment_duration ++ ",", "/ipfs/" ++ cid])

/-- The jingle-interleaving loop of `SetupProcessor.build_playlist`:
walk the tracks with `track_counter` and `jingle_index`; before the
track at a counter that is a positive multiple of `jingle_cycle`,
emit `jingles[jingle_index % len(jingles)]` and bump `jingle_index`.
(`jingle_cycle = 0` raises `ZeroDivisionError` in Python; the claims
only concern `jingle_cycle ≥ 1`.) -/
def build_playlist_loop (segment_duration : Nat) (jingles : List ProcTrack)
    (jingle_cycle : Nat) :
    List ProcTrack → Nat → Nat → List String
  | [], _, _ => []
  | track :: rest, track_counter, jingle_index =>
    (if 0 < track_counter ∧ track_counter % jingle_cycle = 0 then
       entryLines segment_duration
         (jingles.getD (jingle_index % jingles.length) ⟨"", []⟩).segments
     else []) ++
    entryLines segment_duration track.segments ++
    build_playlist_loop segment_duration jingles jingle_cycle rest
      (track_counter + 1)
      (if 0 < track_counter ∧ track_counter % jingle_cycle = 0 then
         jingle_index + 1
       else jingle_index)

/-- `SetupProcessor.build_playlist`: the `#EXTM3U` header followed by
plain concatenation when jingles are disabled or absent, and by the
interleaving loop otherwise.  Returns the lines of `playlist.m3u`. -/
def build_playlist (segment_duration : Nat) (jingles_enabled : Bool)
    (jingle_cycle : Nat) (tracks jingles : List ProcTrack) : List String :=
  "#EXTM3U" ::
    (if jingles_enabled = false ∨ jingles = [] then
       tracks.flatMap (fun t => entryLines segment_duration t.segments)
     else
       build_playlist_loop segment_duration jingles jingle_cycle tracks 0 0)

/-- `SetupProcessor.needs_rebuild`: `True` when force-rebuild is set,
no manifest exists, or the stored hash differs from the current one. -/
def needs_rebuild (force_rebuild : Bool) (manifest : Option Manifest)
    (config_hash : String) : Bool :=
  if force_rebuild then true
  else
    match manifest with
    | none => true
    | some m => if config_hash ≠ m.config_hash then true else false

/-- The upload loop of `SetupProcessor.process_track`: upload each
segment in order, aborting on the first failure. -/
def uploadSegments (upload : String → Option String) :
    List String → Option (List String) × List SetupEffect
  | [] => (some [], [])
  | s :: rest =>
    match upload s with
    | none => (none, [.upload s])
    | some cid =>
      let r := uploadSegments upload rest
      (r.1.map (fun cids => cid :: cids), .upload s :: r.2)

/-- `SetupProcessor.process_track`: verify and chunk the file (one
ffmpeg invocation; `none` models either failure), then upload every
produced segment; any upload failure fails the track. -/
def process_track (chunk : String → Option (List String))
    (upload : String → Option String) (file : String) :
    Option ProcTrack × List SetupEffect :=
  match chunk file with
  | none => (none, [.transcode file])
  | some segs =>
    let r := uploadSegments upload segs
    (r.1.map (fun cids => ⟨file, cids⟩), .transcode file :: r.2)

/-- The track loop of `SetupProcessor.run`: any failed track aborts
the run (`sys.exit(1)`). -/
def processTracks (chunk : String → Option (List String))
    (upload : String → Option String) :
    List String → Option (List ProcTrack) × List SetupEffect
  | [] => (some [], [])
  | f :: rest =>
    let r := process_track chunk upload f
    match r.1 with
    | none => (none, r.2)
    | some tr =>
      let rr := processTracks chunk upload rest
      (rr.1.map (fun ts => tr :: ts), r.2 ++ rr.2)

/-- The jingle loop of `SetupProcessor.run`: a failed jingle is only
logged and skipped. -/
def processJingles (chunk : String → Option (List String))
    (upload : String → Option String) :
    List String → List ProcTrack × List SetupEffect
  | [] => ([], [])
  | f :: rest =>
    let r := process_track chunk upload f
    let rr := processJingles chunk upload rest
    ((match r.1 with
      | some j => j :: rr.1
      | none => rr.1), r.2 ++ rr.2)

/-- Outcome of `SetupProcessor.run`: whether it completed (`False`
models `sys.exit(1)`), the resulting `manifest.json` content, and the
trace of effects. -/
structure SetupResult where
  ok : Bool
  manifest : Option Manifest
  effects : List SetupEffect
  deriving DecidableEq, Repr

/-- `SetupProcessor.run`.  Cache hit (`needs_rebuild` false): re-read
the stored manifest and rewrite only `playlist.m3u` from it.  Cache
miss: enumerate music files (aborting when none), process tracks
(fatal on failure), process jingles (failures skipped), write the
playlist, then write a fresh manifest carrying the current hash. -/
def setup_run (force_rebuild : Bool) (stored : Option Manifest)
    (config_hash : String) (segment_duration : Nat)
    (jingles_enabled : Bool) (jingle_cycle : Nat)
    (music_files jingle_files : List String)
    (chunk : String → Option (List String))
    (upload : String → Option String) : SetupResult :=
  if needs_rebuild force_rebuild stored config_hash = false then
    match stored with
    | some m =>
      ⟨true, stored,
       [.writePlaylist (build_playlist segment_duration jingles_enabled
          jingle_cycle m.tracks m.jingles)]⟩
    | none => ⟨true, stored, []⟩
  else
    if music_files = [] then ⟨false, stored, []⟩
    else
      let rt := processTracks chunk upload music_files
      match rt.1 with
      | none => ⟨false, stored, rt.2⟩
      | some tracks =>
        let rj := processJingles chunk upload jingle_files
        ⟨true, some ⟨config_hash, tracks, rj.1⟩,
         rt.2 ++ rj.2 ++
           [.writePlaylist (build_playlist segment_duration jingles_enabled
              jingle_cycle tracks rj.1),
            .writeManifest]⟩

/-! ### Claim 6: cache correctness -/

/-- C6.  When a manifest exists, its stored hash equals the current
config hash, and force-rebuild is off, `run` is a cache hit: it
completes, performs no transcode and no upload — its only effect is
rewriting `playlist.m3u` from the stored manifest — and leaves the
manifest unchanged. -/
theorem claim6_cache_hit (stored : Option Manifest) (config_hash : String)
    (segment_duration : Nat) (jingles_enabled : Bool) (jingle_cycle : Nat)
    (music_files jingle_files : List String)
    (chunk : String → Option (List String)) (upload : String → Option String)
    (m : Manifest) (hm : stored = some m) (hhash : m.config_hash = config_hash) :
    (setup_run false stored config_hash segment_duration jingles_enabled
        jingle_cycle music_files jingle_files chunk upload).ok = true ∧
    (setup_run false stored config_hash segment_duration jingles_enabled
        jingle_cycle music_files jingle_files chunk upload).manifest = stored ∧
    (setup_run false stored config_hash segment_duration jingles_enabled
        jingle_cycle music_files jingle_files chunk upload).effects =
      [.writePlaylist (build_playlist segment_duration jingles_enabled
         jingle_cycle m.tracks m.jingles)] := by
  subst hm
  simp [setup_run, needs_rebuild, hhash]

/-- Witness for C6 at a concrete input. -/
theorem claim6_cache_hit_witness :
    (setup_run false (some ⟨"h", [⟨"t", ["c1"]⟩], []⟩) "h" 6 false 2
        ["t.mp3"] [] (fun _ => none) (fun _ => none)).ok = true ∧
    (setup_run false (some ⟨"h", [⟨"t", ["c1"]⟩], []⟩) "h" 6 false 2
        ["t.mp3"] [] (fun _ => none) (fun _ => none)).manifest =
      some ⟨"h", [⟨"t", ["c1"]⟩], []⟩ ∧
    (setup_run false (some ⟨"h", [⟨"t", ["c1"]⟩], []⟩) "h" 6 false 2
        ["t.mp3"] [] (fun _ => none) (fun _ => none)).effects =
      [.writePlaylist (build_playlist 6 false 2 [⟨"t", ["c1"]⟩] [])] :=
  claim6_cache_hit (some ⟨"h", [⟨"t", ["c1"]⟩], []⟩) "h" 6 false 2
    ["t.mp3"] [] (fun _ => none) (fun _ => none) ⟨"h", [⟨"t", ["c1"]⟩], []⟩
    rfl rfl

/-! ### Claim 5: jingle interleaving -/

/-- The layout the spec describes for the virtual playlist with
jingles enabled at cycle `k`: the tracks in order, and for each `i`
(0-indexed) the `i`-th jingle — cycling round-robin over the jingle
set — immediately before the `k·(i+1)`-th track (0-indexed), with no
other insertions.  A track index `t` is of the form `k·(i+1)` exactly
when `t > 0` and `k ∣ t`, and then `i = t/k − 1`. -/
def spec_interleaved_playlist (segment_duration : Nat) (jingle_cycle : Nat)
    (tracks jingles : List ProcTrack) : List String :=
  "#EXTM3U" ::
    tracks.enum.flatMap (fun p =>
      (if 0 < p.1 ∧ p.1 % jingle_cycle = 0 then
         entryLines segment_duration
           (jingles.getD ((p.1 / jingle_cycle - 1) % jingles.length)
             ⟨"", []⟩).segments
       else []) ++
      entryLines segment_duration p.2.segments)

set_option maxRecDepth 4000 in
/-- The interleaving loop, started at counter `c` with jingle index
`(c − 1) / k` (its value after the first `c` iterations), produces the
positionally-indexed layout shifted by `c`. -/
lemma build_playlist_loop_eq (sd k : Nat) (hk : 1 ≤ k)
    (jingles : List ProcTrack) :
    ∀ (tracks : List ProcTrack) (c : Nat),
    build_playlist_loop sd jingles k tracks c ((c - 1) / k) =
      (tracks.enumFrom c).flatMap (fun p =>
        (if 0 < p.1 ∧ p.1 % k = 0 then
           entryLines sd
             (jingles.getD ((p.1 / k - 1) % jingles.length) ⟨"", []⟩).segments
         else []) ++
        entryLines sd p.2.segments) := by
  intro tracks
  induction tracks with
  | nil => intro c; simp [build_playlist_loop]
  | cons tr rest ih =>
    intro c
    have hnext : c / k = (c - 1) / k + if 0 < c ∧ c % k = 0 then 1 else 0 := by
      rcases Nat.eq_zero_or_pos c with hc | hc
      · subst hc; simp
      · have hc1 : c - 1 + 1 = c := by omega
        have hs := Nat.succ_div (c - 1) k
        rw [hc1] at hs
        have hiff : (k ∣ c) ↔ (0 < c ∧ c % k = 0) :=
          ⟨fun hd => ⟨hc, Nat.mod_eq_zero_of_dvd hd⟩,
           fun h => Nat.dvd_of_mod_eq_zero h.2⟩
        rw [hs]
        by_cases hd : k ∣ c
        · rw [if_pos hd, if_pos (hiff.mp hd)]
        · rw [if_neg hd, if_neg (fun h => hd (hiff.mpr h))]
    rw [build_playlist_loop, List.enumFrom_cons, List.flatMap_cons]
    have hj' : (if 0 < c ∧ c % k = 0 then (c - 1) / k + 1 else (c - 1) / k) =
        (c + 1 - 1) / k := by
      rw [Nat.add_sub_cancel, hnext]
      by_cases hm : 0 < c ∧ c % k = 0 <;> simp [hm]
    rw [hj', ih (c + 1)]
    by_cases hm : 0 < c ∧ c % k = 0
    · have hjidx : (c - 1) / k = c / k - 1 := by
        rw [hnext, if_pos hm, Nat.add_sub_cancel]
      simp [hm, hjidx, List.append_assoc]
    · simp [hm, List.append_assoc]

/-- C5.  With jingles enabled, cycle `k ≥ 1` and a non-empty jingle
list, `build_playlist` produces exactly the spec's interleaving (the
`i`-th jingle, cycling round-robin, immediately before the
`k·(i+1)`-th track, and nothing else); and with jingles disabled or
an empty jingle list it is exactly the header followed by the
concatenation of all track segments in track order. -/
theorem claim5_jingle_interleave (segment_duration k : Nat) (hk : 1 ≤ k)
    (tracks jingles : List ProcTrack) (hj : jingles ≠ [])
    (enabled : Bool) (js : List ProcTrack)
    (hdis : enabled = false ∨ js = []) :
    build_playlist segment_duration true k tracks jingles =
      spec_interleaved_playlist segment_duration k tracks jingles ∧
    build_playlist segment_duration enabled k tracks js =
      "#EXTM3U" ::
        tracks.flatMap (fun t => entryLines segment_duration t.segments) := by
  constructor
  · have h0 : ((0 : Nat) - 1) / k = 0 := by simp
    have hmain := build_playlist_loop_eq segment_duration k hk jingles tracks 0
    rw [h0] at hmain
    rw [build_playlist, spec_interleaved_playlist, if_neg (by simp [hj])]
    rw [hmain, List.enum]
  · rw [build_playlist, if_pos hdis]

/-- Witness for C5 at a concrete input (two tracks of two segments,
one one-segment jingle, cycle 1 — the jingle lands before the second
track only). -/
theorem claim5_jingle_interleave_witness :
    build_playlist 6 true 1 [⟨"t1", ["a", "b"]⟩, ⟨"t2", ["c", "d"]⟩]
        [⟨"j", ["x"]⟩] =
      spec_interleaved_playlist 6 1 [⟨"t1", ["a", "b"]⟩, ⟨"t2", ["c", "d"]⟩]
        [⟨"j", ["x"]⟩] ∧
    build_playlist 6 false 1 [⟨"t1", ["a", "b"]⟩, ⟨"t2", ["c", "d"]⟩] [] =
      "#EXTM3U" ::
        ([⟨"t1", ["a", "b"]⟩, ⟨"t2", ["c", "d"]⟩] :
            List ProcTrack).flatMap (fun t => entryLines 6 t.segments) :=
  claim5_jingle_interleave 6 1 (by decide)
    [⟨"t1", ["a", "b"]⟩, ⟨"t2", ["c", "d"]⟩] [⟨"j", ["x"]⟩] (by decide)
    false [] (Or.inl rfl)

/-! ## State synchronizer (`state-sync.py`)

The peer table `self.remote_states` is a Python dict keyed by
`node_id`, iterated in insertion order; it is embedded as an
association list.  Timestamps are JSON numbers under the peers'
control, embedded as `Int` (`time.time()` and peer-supplied values
abstracted to integer seconds). -/

/-- The inner state message exchanged on the topic (the fields
`handle_state_update`/`sync_state` read). -/
structure PeerState where
  node_id : String
  position : Int
  track : String
  timestamp : Int
  deriving DecidableEq, Repr

/-- One value of `self.remote_states`: the stored state, its
`timestamp` field (as copied by `handle_state_update`), and the local
receive time. -/
structure PeerEntry where
  state : PeerState
  timestamp : Int
  received_at : Int
  deriving DecidableEq, Repr

/-- The selection loop of `StateSync.sync_state`: scan the peer table
starting from `latest_state = None, latest_timestamp = 0`, replacing
the candidate whenever a strictly larger `timestamp` is found. -/
def selectLatest (remote_states : List (String × PeerEntry)) :
    Option PeerState × Int :=
  remote_states.foldl
    (fun acc p =>
      if acc.2 < p.2.timestamp then (some p.2.state, p.2.timestamp) else acc)
    (none, 0)

/-- `StateSync.sync_state`: return the state written to
`current_position.json` on this call (`none` when nothing is
written).  Empty table: return; otherwise select the latest candidate
and write it iff one was selected and `now − latest_timestamp < 300`. -/
def sync_state (now : Int) (remote_states : List (String × PeerEntry)) :
    Option PeerState :=
  if remote_states = [] then none
  else
    match selectLatest remote_states with
    | (some latest_state, latest_timestamp) =>
      if now - latest_timestamp < 300 then some latest_state else none
    | (none, _) => none

/-- Ordered-dict insertion: replace in place if the key exists,
append otherwise. -/
def dictInsert (m : List (String × PeerEntry)) (key : String)
    (v : PeerEntry) : List (String × PeerEntry) :=
  if m.any (fun p => p.1 = key) then
    m.map (fun p => if p.1 = key then (key, v) else p)
  else m ++ [(key, v)]

/-- `StateSync.handle_state_update`: store
`{state, timestamp: state.timestamp, received_at: now}` under the
sender's `node_id`, then run `sync_state`.  Returns the new table and
the state written (if any). -/
def handle_state_update (now : Int) (remote_states : List (String × PeerEntry))
    (state : PeerState) : List (String × PeerEntry) × Option PeerState :=
  let m := dictInsert remote_states state.node_id ⟨state, state.timestamp, now⟩
  (m, sync_state now m)

/-! ### Claim 7: convergence rule -/

/-- The selection fold only grows its timestamp component, and bounds
every scanned timestamp. -/
lemma selectLatest_fold_ts (l : List (String × PeerEntry))
    (acc : Option PeerState × Int) :
    acc.2 ≤ (l.foldl
      (fun acc p =>
        if acc.2 < p.2.timestamp then (some p.2.state, p.2.timestamp) else acc)
      acc).2 ∧
    ∀ p ∈ l, p.2.timestamp ≤ (l.foldl
      (fun acc p =>
        if acc.2 < p.2.timestamp then (some p.2.state, p.2.timestamp) else acc)
      acc).2 := by
  induction l generalizing acc with
  | nil => exact ⟨le_refl _, by simp⟩
  | cons q rest ih =>
    rw [List.foldl_cons]
    constructor
    · refine le_trans ?_ (ih _).1
      by_cases hq : acc.2 < q.2.timestamp <;> simp [hq] <;> omega
    · intro p hp
      rcases List.mem_cons.mp hp with hp | hp
      · subst hp
        refine le_trans ?_ (ih _).1
        by_cases hq : acc.2 < p.2.timestamp <;> simp [hq] <;> omega
      · exact (ih _).2 p hp

/-- The selection fold either returns its accumulator unchanged or
returns the state and timestamp of some scanned entry, in the latter
case with a timestamp strictly above the initial one. -/
lemma selectLatest_fold_origin (l : List (String × PeerEntry))
    (acc : Option PeerState × Int) :
    (l.foldl
      (fun acc p =>
        if acc.2 < p.2.timestamp then (some p.2.state, p.2.timestamp) else acc)
      acc) = acc ∨
    ∃ p ∈ l, (l.foldl
      (fun acc p =>
        if acc.2 < p.2.timestamp then (some p.2.state, p.2.timestamp) else acc)
      acc) = (some p.2.state, p.2.timestamp) ∧
      acc.2 < (l.foldl
        (fun acc p =>
          if acc.2 < p.2.timestamp then (some p.2.state, p.2.timestamp) else acc)
        acc).2 := by
  induction l generalizing acc with
  | nil => exact Or.inl rfl
  | cons q rest ih =>
    rw [List.foldl_cons]
    by_cases hq : acc.2 < q.2.timestamp
    · rw [if_pos hq]
      rcases ih (some q.2.state, q.2.timestamp) with h | ⟨p, hp, h1, h2⟩
      · exact Or.inr ⟨q, List.mem_cons_self _ _, h, by rw [h]; exact hq⟩
      · exact Or.inr ⟨p, List.mem_cons_of_mem _ hp, h1, by simp at h2; omega⟩
    · rw [if_neg hq]
      rcases ih acc with h | ⟨p, hp, h1, h2⟩
      · exact Or.inl h
      · exact Or.inr ⟨p, List.mem_cons_of_mem _ hp, h1, h2⟩

/-- Counterexample to C7 as stated: a single stored peer state with
`timestamp = 0` is the one with the largest timestamp and satisfies
`now − timestamp = 100 < 300`, yet `sync_state` writes nothing (the
scan starts from `latest_timestamp = 0` with a strict comparison, so
no candidate is ever selected): the "if and only if" fails. -/
theorem claim7_counterexample :
    sync_state 100 [("a", ⟨⟨"a", 0, "t", 0⟩, 0, 50⟩)] = none ∧
    (100 : Int) - 0 < 300 := by
  constructor
  · rfl
  · decide

/-- C7 amended.  After every update, whenever `sync_state` writes a
state it is one of the stored peer states, its timestamp is the
largest stored one, is strictly positive, and satisfies
`now − timestamp < 300` (the claimed freshness of everything written);
conversely, whenever some stored peer has the largest timestamp, that
timestamp is strictly positive, and it is fresh (`now − ts < 300`), a
state is written.  (The hypothesis is the invariant, established by
`handle_state_update`, that each entry's `timestamp` field equals its
stored state's.) -/
theorem claim7_amended_convergence (now : Int)
    (remote_states : List (String × PeerEntry))
    (hts : ∀ p ∈ remote_states, p.2.timestamp = p.2.state.timestamp) :
    (∀ st, sync_state now remote_states = some st →
      (∀ p ∈ remote_states, p.2.timestamp ≤ st.timestamp) ∧
      (∃ p ∈ remote_states, p.2.state = st) ∧
      0 < st.timestamp ∧ now - st.timestamp < 300) ∧
    ((∃ p ∈ remote_states, 0 < p.2.timestamp ∧ now - p.2.timestamp < 300 ∧
        ∀ q ∈ remote_states, q.2.timestamp ≤ p.2.timestamp) →
      ∃ st, sync_state now remote_states = some st) := by
  constructor
  · intro st hw
    unfold sync_state at hw
    by_cases hne : remote_states = []
    · simp [hne] at hw
    · rw [if_neg hne] at hw
      rcases hsel : selectLatest remote_states with ⟨cand, ts⟩
      rw [hsel] at hw
      rcases cand with _ | latest
      · exact absurd hw (by simp)
      · have hw' : (if now - ts < 300 then some latest else none) = some st := hw
        by_cases hfresh : now - ts < 300
        · rw [if_pos hfresh] at hw'
          injection hw' with hw'
          subst hw'
          rcases selectLatest_fold_origin remote_states (none, 0) with h | ⟨p, hp, h1, h2⟩
          · rw [show List.foldl
                (fun acc p =>
                  if acc.2 < p.2.timestamp then (some p.2.state, p.2.timestamp)
                  else acc) (none, 0) remote_states = selectLatest remote_states
                from rfl, hsel] at h
            exact absurd h (by simp)
          · rw [show List.foldl
                (fun acc p =>
                  if acc.2 < p.2.timestamp then (some p.2.state, p.2.timestamp)
                  else acc) (none, 0) remote_states = selectLatest remote_states
                from rfl, hsel] at h1 h2
            injection h1 with hs1 hs2
            injection hs1 with hs1
            have hbound := (selectLatest_fold_ts remote_states (none, 0)).2
            refine ⟨?_, ⟨p, hp, hs1.symm⟩, ?_, ?_⟩
            · intro q hq
              have hq2 := hbound q hq
              rw [show List.foldl
                  (fun acc p =>
                    if acc.2 < p.2.timestamp then (some p.2.state, p.2.timestamp)
                    else acc) (none, 0) remote_states = selectLatest remote_states
                  from rfl, hsel] at hq2
              rw [hs1, ← hts p hp, ← hs2]
              exact hq2
            · rw [hs1, ← hts p hp, ← hs2]
              simpa using h2
            · rw [hs1, ← hts p hp, ← hs2]
              exact hfresh
        · rw [if_neg hfresh] at hw'
          exact absurd hw' (by simp)
  · rintro ⟨p, hp, hpos, hfresh, hmax⟩
    have hne : remote_states ≠ [] := by
      intro h; subst h; simp at hp
    unfold sync_state
    rw [if_neg hne]
    rcases hsel : selectLatest remote_states with ⟨cand, ts⟩
    have hts2 : p.2.timestamp ≤ ts := by
      have h := (selectLatest_fold_ts remote_states (none, 0)).2 p hp
      rw [show List.foldl
          (fun acc p =>
            if acc.2 < p.2.timestamp then (some p.2.state, p.2.timestamp)
            else acc) (none, 0) remote_states = selectLatest remote_states
          from rfl, hsel] at h
      exact h
    rcases selectLatest_fold_origin remote_states (none, 0) with h | ⟨q, hq, h1, h2⟩
    · rw [show List.foldl
          (fun acc p =>
            if acc.2 < p.2.timestamp then (some p.2.state, p.2.timestamp)
            else acc) (none, 0) remote_states = selectLatest remote_states
          from rfl, hsel] at h
      injection h with hc hz
      exfalso
      rw [hz] at hts2
      omega
    · rw [show List.foldl
          (fun acc p =>
            if acc.2 < p.2.timestamp then (some p.2.state, p.2.timestamp)
            else acc) (none, 0) remote_states = selectLatest remote_states
          from rfl, hsel] at h1
      rcases cand with _ | latest
      · exact absurd h1 (by simp)
      · injection h1 with hs1 hs2
        have hqle : q.2.timestamp ≤ p.2.timestamp := hmax q hq
        have hle : ts ≤ p.2.timestamp := by rw [hs2]; exact hqle
        refine ⟨latest, ?_⟩
        show (if now - ts < 300 then some latest else none) = some latest
        rw [if_pos (by omega)]

/-- A concrete two-peer table used to witness the amended C7. -/
def samplePeers : List (String × PeerEntry) :=
  [("a", ⟨⟨"a", 3, "t", 100⟩, 100, 110⟩),
   ("b", ⟨⟨"b", 7, "u", 200⟩, 200, 210⟩)]

/-- Witness for the amended C7 on a concrete two-peer table. -/
theorem claim7_amended_convergence_witness :
    (∀ st, sync_state 250 samplePeers = some st →
      (∀ p ∈ samplePeers, p.2.timestamp ≤ st.timestamp) ∧
      (∃ p ∈ samplePeers, p.2.state = st) ∧
      0 < st.timestamp ∧ (250 : Int) - st.timestamp < 300) ∧
    ((∃ p ∈ samplePeers, 0 < p.2.timestamp ∧
        (250 : Int) - p.2.timestamp < 300 ∧
        ∀ q ∈ samplePeers, q.2.timestamp ≤ p.2.timestamp) →
      ∃ st, sync_state 250 samplePeers = some st) :=
  claim7_amended_convergence 250 samplePeers (by decide)

/-! ### Claim 8: multibase topic round trip

`encode_topic_multibase` is `'u' +
base64.urlsafe_b64encode(topic.encode()).decode().rstrip('=')`; the
inverse procedure in `subscribe_to_topic` strips the `'u'`, appends
`'=='` and calls `base64.urlsafe_b64decode`.  Bytes are embedded as
`Nat` below 256; the url-safe alphabet is `A–Z a–z 0–9 - _`. -/

/-- The url-safe base64 alphabet: the character for a 6-bit value. -/
def b64Char (n : Nat) : Char :=
  if n < 26 then Char.ofNat (65 + n)
  else if n < 52 then Char.ofNat (97 + (n - 26))
  else if n < 62 then Char.ofNat (48 + (n - 52))
  else if n = 62 then '-'
  else '_'

/-- The 6-bit value of an alphabet character (`none` off-alphabet). -/
def b64Value (c : Char) : Option Nat :=
  if 'A' ≤ c ∧ c ≤ 'Z' then some (c.toNat - 65)
  else if 'a' ≤ c ∧ c ≤ 'z' then some (c.toNat - 97 + 26)
  else if '0' ≤ c ∧ c ≤ '9' then some (c.toNat - 48 + 52)
  else if c = '-' then some 62
  else if c = '_' then some 63
  else none

/-- `base64.urlsafe_b64encode` followed by `.rstrip('=')`: bytes are
taken three at a time into four sextet characters; a final single byte
yields two characters and a final pair three (the padding the stdlib
would add is exactly what `rstrip('=')` removes, and no alphabet
character is `'='`, so stripping removes nothing else). -/
def b64EncodeNoPad : List Nat → List Char
  | [] => []
  | [b1] => [b64Char (b1 / 4), b64Char (b1 % 4 * 16)]
  | [b1, b2] =>
    [b64Char (b1 / 4), b64Char (b1 % 4 * 16 + b2 / 16), b64Char (b2 % 16 * 4)]
  | b1 :: b2 :: b3 :: rest =>
    b64Char (b1 / 4) :: b64Char (b1 % 4 * 16 + b2 / 16) ::
      b64Char (b2 % 16 * 4 + b3 / 64) :: b64Char (b3 % 64) ::
        b64EncodeNoPad rest

/-- Reassemble bytes from sextet values: full quads give three bytes; a
final pair gives one byte and a final triple two (the cases resolved by
padding); a dangling single sextet is a decode error. -/
def b64DecodeSextets : List Nat → Option (List Nat)
  | [] => some []
  | [_] => none
  | [c1, c2] => some [c1 * 4 + c2 / 16]
  | [c1, c2, c3] => some [c1 * 4 + c2 / 16, c2 % 16 * 16 + c3 / 4]
  | c1 :: c2 :: c3 :: c4 :: rest =>
    (b64DecodeSextets rest).map
      (fun bs =>
        (c1 * 4 + c2 / 16) :: (c2 % 16 * 16 + c3 / 4) ::
          (c3 % 4 * 64 + c4) :: bs)

/-- Map every character to its sextet value, failing on the first
off-alphabet character. -/
def b64Values : List Char → Option (List Nat)
  | [] => some []
  | c :: rest =>
    match b64Value c, b64Values rest with
    | some v, some vs => some (v :: vs)
    | _, _ => none

/-- `base64.urlsafe_b64decode` (non-strict `binascii.a2b_base64`) on
inputs of the form `data ++ padding` — the only shape
`subscribe_to_topic` produces, since it always appends `"=="`: decode
the alphabet characters before the first `'='` in quads, the final
partial quad resolved by the padding (surplus `'='` at a quad boundary
is ignored; a dangling single character is an error). -/
def urlsafe_b64decode (cs : List Char) : Option (List Nat) :=
  let data := cs.takeWhile (fun c => c != '=')
  let rest := cs.dropWhile (fun c => c != '=')
  if rest.all (fun c => c == '=') then
    match b64Values data with
    | some vs => b64DecodeSextets vs
    | none => none
  else none

/-- `encode_topic_multibase` in `state-sync.py`, on the UTF-8 bytes of
the topic: `'u'` followed by unpadded url-safe base64. -/
def encode_topic_multibase (bytes : List Nat) : List Char :=
  'u' :: b64EncodeNoPad bytes

/-- The decoding procedure of `subscribe_to_topic`: require the
multibase prefix `'u'`, strip it, append `"=="` and url-safe-base64
decode. -/
def decode_topic_multibase (cs : List Char) : Option (List Nat) :=
  match cs with
  | c :: rest => if c = 'u' then urlsafe_b64decode (rest ++ ['=', '=']) else none
  | [] => none

/-- The UTF-8 bytes of a string (`topic.encode()` in Python). -/
def utf8Bytes (s : String) : List Nat :=
  s.toUTF8.toList.map (fun b => b.toNat)

/-- Decoding inverts the alphabet on every 6-bit value. -/
lemma b64Value_b64Char : ∀ n, n < 64 → b64Value (b64Char n) = some n := by
  decide

/-- No alphabet character is `'='`. -/
lemma b64Char_ne_pad : ∀ n, n < 64 → (b64Char n != '=') = true := by
  decide

/-- Every character the encoder emits is an alphabet character of some
6-bit value. -/
lemma b64EncodeNoPad_mem : ∀ bs, (∀ b ∈ bs, b < 256) →
    ∀ c ∈ b64EncodeNoPad bs, ∃ n, n < 64 ∧ c = b64Char n := by
  intro bs
  induction bs using b64EncodeNoPad.induct with
  | case1 => intro _ c hc; simp [b64EncodeNoPad] at hc
  | case2 b1 =>
    intro h c hc
    have hb1 : b1 < 256 := h b1 (by simp)
    simp only [b64EncodeNoPad, List.mem_cons, List.mem_singleton,
      List.not_mem_nil, or_false] at hc
    rcases hc with hc | hc
    · exact ⟨b1 / 4, by omega, hc⟩
    · exact ⟨b1 % 4 * 16, by omega, hc⟩
  | case3 b1 b2 =>
    intro h c hc
    have hb1 : b1 < 256 := h b1 (by simp)
    have hb2 : b2 < 256 := h b2 (by simp)
    simp only [b64EncodeNoPad, List.mem_cons, List.mem_singleton,
      List.not_mem_nil, or_false] at hc
    rcases hc with hc | hc | hc
    · exact ⟨b1 / 4, by omega, hc⟩
    · exact ⟨b1 % 4 * 16 + b2 / 16, by omega, hc⟩
    · exact ⟨b2 % 16 * 4, by omega, hc⟩
  | case4 b1 b2 b3 rest ih =>
    intro h c hc
    have hb1 : b1 < 256 := h b1 (by simp)
    have hb2 : b2 < 256 := h b2 (by simp)
    have hb3 : b3 < 256 := h b3 (by simp)
    simp only [b64EncodeNoPad, List.mem_cons] at hc
    rcases hc with hc | hc | hc | hc | hc
    · exact ⟨b1 / 4, by omega, hc⟩
    · exact ⟨b1 % 4 * 16 + b2 / 16, by omega, hc⟩
    · exact ⟨b2 % 16 * 4 + b3 / 64, by omega, hc⟩
    · exact ⟨b3 % 64, by omega, hc⟩
    · exact ih (fun b hb => h b (by simp [hb])) c hc

/-- Splitting a pad-free prefix from the appended `"=="`. -/
lemma takeWhile_append_pads :
    ∀ l : List Char, (∀ c ∈ l, (c != '=') = true) →
    (l ++ ['=', '=']).takeWhile (fun c => c != '=') = l ∧
    (l ++ ['=', '=']).dropWhile (fun c => c != '=') = ['=', '='] := by
  intro l
  induction l with
  | nil => intro _; constructor <;> rfl
  | cons c rest ih =>
    intro h
    have hc : (c != '=') = true := h c (by simp)
    have hr := ih (fun x hx => h x (by simp [hx]))
    constructor
    · rw [List.cons_append, List.takeWhile_cons, hc, if_pos rfl, hr.1]
    · rw [List.cons_append, List.dropWhile_cons, hc, if_pos rfl, hr.2]

/-- Core round trip: the sextet values of the encoder's output decode
to exactly the original bytes. -/
lemma b64_core_roundtrip : ∀ bs, (∀ b ∈ bs, b < 256) →
    ∃ vs, b64Values (b64EncodeNoPad bs) = some vs ∧
      b64DecodeSextets vs = some bs := by
  intro bs
  induction bs using b64EncodeNoPad.induct with
  | case1 =>
    intro _
    exact ⟨[], rfl, rfl⟩
  | case2 b1 =>
    intro h
    have hb1 : b1 < 256 := h b1 (by simp)
    refine ⟨[b1 / 4, b1 % 4 * 16], ?_, ?_⟩
    · simp [b64EncodeNoPad, b64Values,
        b64Value_b64Char (b1 / 4) (by omega),
        b64Value_b64Char (b1 % 4 * 16) (by omega)]
    · simp only [b64DecodeSextets, Option.some.injEq, List.cons.injEq,
        and_true]
      omega
  | case3 b1 b2 =>
    intro h
    have hb1 : b1 < 256 := h b1 (by simp)
    have hb2 : b2 < 256 := h b2 (by simp)
    refine ⟨[b1 / 4, b1 % 4 * 16 + b2 / 16, b2 % 16 * 4], ?_, ?_⟩
    · simp [b64EncodeNoPad, b64Values,
        b64Value_b64Char (b1 / 4) (by omega),
        b64Value_b64Char (b1 % 4 * 16 + b2 / 16) (by omega),
        b64Value_b64Char (b2 % 16 * 4) (by omega)]
    · simp only [b64DecodeSextets, Option.some.injEq, List.cons.injEq,
        and_true]
      constructor <;> omega
  | case4 b1 b2 b3 rest ih =>
    intro h
    have hb1 : b1 < 256 := h b1 (by simp)
    have hb2 : b2 < 256 := h b2 (by simp)
    have hb3 : b3 < 256 := h b3 (by simp)
    obtain ⟨vs, hv, hd⟩ := ih (fun b hb => h b (by simp [hb]))
    refine ⟨b1 / 4 :: (b1 % 4 * 16 + b2 / 16) :: (b2 % 16 * 4 + b3 / 64) ::
      b3 % 64 :: vs, ?_, ?_⟩
    · simp [b64EncodeNoPad, b64Values, hv,
        b64Value_b64Char (b1 / 4) (by omega),
        b64Value_b64Char (b1 % 4 * 16 + b2 / 16) (by omega),
        b64Value_b64Char (b2 % 16 * 4 + b3 / 64) (by omega),
        b64Value_b64Char (b3 % 64) (by omega)]
    · simp only [b64DecodeSextets, hd, Option.map_some', Option.some.injEq,
        List.cons.injEq, and_true]
      omega

/-- Byte-level round trip of the multibase topic encoding. -/
lemma multibase_bytes_roundtrip (bs : List Nat) (h : ∀ b ∈ bs, b < 256) :
    decode_topic_multibase (encode_topic_multibase bs) = some bs := by
  have hchars : ∀ c ∈ b64EncodeNoPad bs, (c != '=') = true := by
    intro c hc
    obtain ⟨n, hn, rfl⟩ := b64EncodeNoPad_mem bs h c hc
    exact b64Char_ne_pad n hn
  obtain ⟨htw, hdw⟩ := takeWhile_append_pads _ hchars
  obtain ⟨vs, hv, hd⟩ := b64_core_roundtrip bs h
  rw [encode_topic_multibase, decode_topic_multibase]
  rw [if_pos rfl, urlsafe_b64decode]
  simp only [htw, hdw, hv, hd, List.all_cons, List.all_nil, beq_self_eq_true,
    Bool.and_self, if_true]

/-- C8.  For every string `t`, decoding the multibase topic encoding
of `t` with the synchronizer's procedure (strip `'u'`, append `"=="`,
url-safe-base64 decode) recovers exactly the UTF-8 bytes of `t` — that
is, `t` itself, the final `bytes.decode('utf-8')` being the inverse of
the `str.encode()` the encoder started from. -/
theorem claim8_topic_roundtrip (t : String) :
    decode_topic_multibase (encode_topic_multibase (utf8Bytes t)) =
      some (utf8Bytes t) := by
  refine multibase_bytes_roundtrip _ ?_
  intro b hb
  obtain ⟨x, _, rfl⟩ := List.mem_map.mp hb
  exact x.val.isLt

/-! ## Segment cleanup (`cleanup-old-segments.py`)

The segment state document `ipfs_segments.json` maps quality buckets
to dicts of `{filename → segment record}`; both dict levels are
embedded as association lists in insertion order.  The IPFS
`pin/rm` outcome is an oracle `unpinOk : String → Bool` over CIDs; the
local-file delete has no bearing on the state document and is not
tracked. -/

/-- The fields of one segment record that `cleanup_old_segments`
reads: its CID (`.get('cid')`, possibly absent), size and creation
timestamp. -/
structure SegInfo where
  cid : Option String
  size : Nat
  timestamp : Int
  deriving DecidableEq, Repr

/-- Stable insert for `sortedByTimestamp`. -/
def insertByTs (p : String × SegInfo) :
    List (String × SegInfo) → List (String × SegInfo)
  | [] => [p]
  | q :: rest =>
    if p.2.timestamp ≤ q.2.timestamp then p :: q :: rest
    else q :: insertByTs p rest

/-- Python's stable `sorted(segments.items(), key=timestamp)` (a
stable sort by a key is a unique function, here realised as insertion
sort). -/
def sortedByTimestamp : List (String × SegInfo) → List (String × SegInfo)
  | [] => []
  | p :: rest => insertByTs p (sortedByTimestamp rest)

/-- The removal loop of `cleanup_old_segments` over the selected
entries: an entry with a CID is always removed from the (in-memory)
bucket — `del segments[filename]` is not guarded by the unpin result —
while the removed-counter is incremented only when the unpin
succeeded; an entry without a CID is skipped entirely. -/
def cleanupRemove (unpinOk : String → Bool)
    (toRemove : List (String × SegInfo)) (segs : List (String × SegInfo)) :
    List (String × SegInfo) × Nat :=
  toRemove.foldl
    (fun acc p =>
      match p.2.cid with
      | some c =>
        (acc.1.filter (fun q => q.1 != p.1),
         acc.2 + (if unpinOk c then 1 else 0))
      | none => acc)
    (segs, 0)

/-- Selection and removal for one quality bucket: sort by timestamp;
select every entry older than the retention time, then the oldest
entries in excess of `MAX_SEGMENTS` not already selected by age; run
the removal loop.  Returns the mutated bucket and the number of
successful unpins. -/
def cleanupQuality (now retention : Int) (maxSegs : Nat)
    (unpinOk : String → Bool) (segments : List (String × SegInfo)) :
    List (String × SegInfo) × Nat :=
  if segments = [] then (segments, 0)
  else
    let sorted := sortedByTimestamp segments
    let ageSel := sorted.filter (fun p => retention < now - p.2.timestamp)
    let countSel :=
      if maxSegs < sorted.length then
        (sorted.take (sorted.length - maxSegs)).filter
          (fun p => !(decide (p ∈ ageSel)))
      else []
    cleanupRemove unpinOk (ageSel ++ countSel) segments

/-- `SegmentCleaner.cleanup_old_segments`: returns the resulting
on-disk state document.  Empty document: return.  Otherwise process
every quality bucket; the mutated state is saved back to disk only
when `total_removed > 0`, i.e. only when at least one unpin succeeded
— otherwise the document keeps its previous content. -/
def cleanup_old_segments (now retention : Int) (maxSegs : Nat)
    (unpinOk : String → Bool)
    (state : List (String × List (String × SegInfo))) :
    List (String × List (String × SegInfo)) :=
  if state = [] then state
  else
    let results := state.map
      (fun q => (q.1, cleanupQuality now retention maxSegs unpinOk q.2))
    let total_removed : Nat := (results.map (fun q => q.2.2)).sum
    if 0 < total_removed then results.map (fun q => (q.1, q.2.1)) else state

/-! ### Claim 9: removal on unpin failure -/

/-- Counterexample to C9 as stated: bucket `720p` holds `f1` (CID `A`)
and `f2` (CID `B`), both over-age; the unpin of `A` succeeds and the
unpin of `B` fails, yet the resulting state document drops both
entries — `f2`'s entry is removed from the document even though its
unpin failed. -/
theorem claim9_counterexample :
    (fun c => c == "A") "B" = false ∧
    cleanup_old_segments 1000 300 50 (fun c => c == "A")
        [("720p", [("f1", ⟨some "A", 10, 0⟩), ("f2", ⟨some "B", 10, 0⟩)])] =
      [("720p", [])] := by
  decide

/-- The removal loop's resulting bucket, for any unpin oracle and any
initial counter value: exactly those original entries survive whose
key is not that of a selected entry carrying a CID. -/
lemma cleanupRemove_foldl_filter (u : String → Bool) :
    ∀ (l : List (String × SegInfo)) (segs : List (String × SegInfo)) (n : Nat),
    (l.foldl
      (fun acc p =>
        match p.2.cid with
        | some c =>
          (acc.1.filter (fun q => q.1 != p.1),
           acc.2 + (if u c then 1 else 0))
        | none => acc) (segs, n)).1 =
    segs.filter
      (fun q => !(l.any (fun p => p.2.cid.isSome && p.1 == q.1))) := by
  intro l
  induction l with
  | nil =>
    intro segs n
    simp
  | cons p rest ih =>
    intro segs n
    rw [List.foldl_cons]
    rcases hc : p.2.cid with _ | c
    · simp only [hc]
      rw [ih segs n]
      congr 1
      funext q
      simp [hc]
    · simp only [hc]
      rw [ih (segs.filter (fun q => q.1 != p.1)) (n + (if u c then 1 else 0))]
      rw [List.filter_filter]
      congr 1
      funext q
      by_cases h : p.1 = q.1
      · simp [hc, h]
      · have h' : q.1 ≠ p.1 := fun he => h he.symm
        have hb1 : (q.1 != p.1) = true := by
          simp [bne_iff_ne, h']
        have hb2 : (p.1 == q.1) = false := by
          simp [beq_eq_false_iff_ne, h]
        simp [hc, hb1, hb2, Bool.and_comm]

/-- C9 amended.  Whether a selected entry is removed from the
in-memory state does not depend on the unpin outcomes at all; an
original entry is removed exactly when some selected entry carries a
CID and its filename — so every selected CID-carrying entry is
dropped, unpin failure notwithstanding, and entries without a CID are
retained.  The unpin results govern only the `total_removed` counter
and thereby only whether the mutated document is written back: when no
unpin succeeds (`total_removed = 0`) the on-disk document is left
entirely unchanged, and when at least one unpin succeeds the document
is rewritten to exactly the mutated buckets. -/
theorem claim9_amended_removal (now retention : Int) (maxSegs : Nat)
    (unpinOk : String → Bool) (toRemove segs : List (String × SegInfo))
    (state : List (String × List (String × SegInfo))) :
    (cleanupRemove unpinOk toRemove segs).1 =
      (cleanupRemove (fun _ => true) toRemove segs).1 ∧
    (cleanupRemove unpinOk toRemove segs).1 =
      segs.filter
        (fun q => !(toRemove.any (fun p => p.2.cid.isSome && p.1 == q.1))) ∧
    ((state.map
        (fun q => (cleanupQuality now retention maxSegs unpinOk q.2).2)).sum = 0 →
      cleanup_old_segments now retention maxSegs unpinOk state = state) ∧
    (0 < (state.map
        (fun q => (cleanupQuality now retention maxSegs unpinOk q.2).2)).sum →
      cleanup_old_segments now retention maxSegs unpinOk state =
        state.map
          (fun q => (q.1, (cleanupQuality now retention maxSegs unpinOk q.2).1))) := by
  have hmap : ∀ st : List (String × List (String × SegInfo)),
      ((st.map
        (fun q => (q.1, cleanupQuality now retention maxSegs unpinOk q.2))).map
          (fun q => q.2.2)).sum =
        (st.map
          (fun q => (cleanupQuality now retention maxSegs unpinOk q.2).2)).sum := by
    intro st
    rw [List.map_map]
    rfl
  refine ⟨?_, ?_, ?_, ?_⟩
  · rw [cleanupRemove, cleanupRemove_foldl_filter unpinOk toRemove segs 0,
      cleanupRemove, cleanupRemove_foldl_filter (fun _ => true) toRemove segs 0]
  · rw [cleanupRemove, cleanupRemove_foldl_filter unpinOk toRemove segs 0]
  · intro hz
    unfold cleanup_old_segments
    by_cases hs : state = []
    · rw [if_pos hs]
    · rw [if_neg hs]
      dsimp only
      rw [hmap state, hz]
      simp
  · intro hpos
    have hs : state ≠ [] := by
      intro h
      subst h
      simp at hpos
    unfold cleanup_old_segments
    rw [if_neg hs]
    dsimp only
    rw [hmap state, if_pos hpos, List.map_map]
    rfl

end Sleet
